import Mathlib

/-!
Verification of the RunSound playlist-generation core.

This file gives a shallow embedding of the feature-engineering and
playlist-assembly functions of the repository (feature_engineer.py,
train_music_model.py, ml_recommender.py, alternative_recommender.py,
spotify_client.py) and proves properties of them.

Modelling conventions:
* Python floats are modelled by `ℚ`; `round(x, 2)` is modelled by
  half-to-even rounding on rationals (`round2`).
* Python dicts keyed by strings are modelled by functions into `Option`
  or by insertion-ordered association lists, matching dict semantics
  (insertion order of keys, replacement of values on duplicate keys).
* Opaque collaborators (the fitted regressors, the scaler, the search
  and audio-features API, `random.shuffle`, `statistics.stdev`) are
  modelled as function parameters.
* Timestamps are modelled as integer seconds (UTC).
-/

/-- Half-to-even ("banker's") rounding of a rational to an integer,
the semantics of Python's built-in `round`. -/
def rhe (q : ℚ) : ℤ :=
  if q - ⌊q⌋ = 1/2 then (if 2 ∣ ⌊q⌋ then ⌊q⌋ else ⌊q⌋ + 1) else round q

/-- Python's `round(x, 2)`: round to two decimal places. -/
def round2 (q : ℚ) : ℚ := (rhe (100 * q) : ℚ) / 100

/-- A rational that is exactly representable with two decimal places. -/
def twoDecimal (q : ℚ) : Prop := ∃ k : ℤ, q = (k : ℚ) / 100

/-- `map_pace_to_bpm` from feature_engineer.py: scans the
`PACE_TO_BPM_MAPPING` table in insertion order, then falls back on the
table limits. -/
def mapPaceToBpm (p : ℚ) : ℤ :=
  if 4 ≤ p ∧ p < 4.5 then 180
  else if 4.5 ≤ p ∧ p < 5 then 170
  else if 5 ≤ p ∧ p < 5.5 then 165
  else if 5.5 ≤ p ∧ p < 6 then 160
  else if 6 ≤ p ∧ p < 7 then 150
  else if 7 ≤ p ∧ p < 8 then 140
  else if p < 4 then 185
  else 135

/-- An entry of the run-history list consumed by `get_weekly_mileage`
(feature_engineer.py): `start_time` may be missing (entry skipped) and
`distance_m` defaults to `0` when missing. Timestamps are UTC seconds. -/
structure RunEntry where
  start_time : Option ℤ
  distance_m : Option ℚ
deriving DecidableEq

/-- The 7-day window test of `get_weekly_mileage`:
`week_ago <= run_date < current_dt` (604800 seconds = 7 days). -/
def inWindow (t : ℤ) (r : RunEntry) : Bool :=
  match r.start_time with
  | some s => decide (t - 604800 ≤ s ∧ s < t)
  | none => false

/-- `get_weekly_mileage` from feature_engineer.py: loops over the history
accumulating `distance_m / 1000` for entries inside the trailing 7-day
window, skipping entries without a `start_time`. -/
def getWeeklyMileage (hist : List RunEntry) (t : ℤ) : ℚ :=
  hist.foldl
    (fun acc r =>
      match r.start_time with
      | none => acc
      | some s =>
        if t - 604800 ≤ s ∧ s < t then acc + (r.distance_m.getD 0) / 1000 else acc)
    0

/-- Python `str.lower`, character by character. -/
def lowerStr (s : String) : String := String.mk (s.data.map Char.toLower)

/-- Python `any(word in name for word in kws)`: substring containment. -/
def hasKw (name : String) (kws : List String) : Bool :=
  kws.any (fun w => decide (w.data <:+: name.data))

/-- `detect_run_type` from feature_engineer.py, including the unreachable
repeated `distance_km > 15` test of the second branch chain. -/
def detectRunType (run_name : String) (pace_min_km distance_km : ℚ) : String :=
  let nl := lowerStr run_name
  if hasKw nl ["interval", "mas", "repeat", "400m", "200m"] then "interval"
  else if hasKw nl ["tempo", "threshold", "marathon pace"] then "tempo"
  else if hasKw nl ["easy", "recovery", "slow", "jog"] then "easy"
  else if hasKw nl ["race", "competition", "pr"] then "race"
  else if distance_km > 15 then "long"
  else if pace_min_km < 4.5 then "race"
  else if pace_min_km < 5 then "tempo"
  else if distance_km > 15 then "long"
  else if pace_min_km > 6.5 then "easy"
  else "steady"

/-- Run-type classification written exactly in the precedence order the
spec states: keyword lists, then `distance > 15 → long`, then the pace
thresholds, then the `steady` default. To be compared with
`detectRunType`. -/
def detectRunTypeSpec (run_name : String) (pace_min_km distance_km : ℚ) : String :=
  let nl := lowerStr run_name
  if hasKw nl ["interval", "mas", "repeat", "400m", "200m"] then "interval"
  else if hasKw nl ["tempo", "threshold", "marathon pace"] then "tempo"
  else if hasKw nl ["easy", "recovery", "slow", "jog"] then "easy"
  else if hasKw nl ["race", "competition", "pr"] then "race"
  else if distance_km > 15 then "long"
  else if pace_min_km < 4.5 then "race"
  else if pace_min_km < 5 then "tempo"
  else if pace_min_km > 6.5 then "easy"
  else "steady"

/-- The three music-target values produced by both target-mapping
strategies. -/
structure MusicPred where
  target_tempo : ℚ
  target_energy : ℚ
  target_valence : ℚ
deriving DecidableEq

/-- The fields of the feature dictionary read by
`calculate_music_targets` (feature_engineer.py). -/
structure MTFeatures where
  target_bpm : ℚ
  run_type : String
  temp_bin : String
  time_of_day : String

/-- Energy after the run-type branch of `calculate_music_targets`
(feature_engineer.py); the source assigns energy and valence together in
one if/elif chain, split here into `runTypeEnergy`/`runTypeValence`. -/
def runTypeEnergy (rt : String) : ℚ :=
  if rt = "interval" then 0.85
  else if rt = "tempo" then 0.75
  else if rt = "easy" then 0.4
  else if rt = "race" then 0.9
  else if rt = "long" then 0.55
  else 0.6

/-- Valence after the run-type branch of `calculate_music_targets`. -/
def runTypeValence (rt : String) : ℚ :=
  if rt = "interval" then 0.7
  else if rt = "tempo" then 0.65
  else if rt = "easy" then 0.6
  else if rt = "race" then 0.8
  else if rt = "long" then 0.6
  else 0.5

/-- The temperature adjustment of `calculate_music_targets`:
`temp_bin in ["Very Cold", "Cold"]` lowers valence with floor 0.2,
`["Warm", "Hot"]` raises it with ceiling 0.9. -/
def tempAdjValence (tb : String) (v : ℚ) : ℚ :=
  if tb = "Very Cold" ∨ tb = "Cold" then max 0.2 (v - 0.15)
  else if tb = "Warm" ∨ tb = "Hot" then min 0.9 (v + 0.15)
  else v

/-- The time-of-day adjustment of valence: morning raises it with
ceiling 0.8 (the night elif touches only energy). -/
def timeAdjValence (tod : String) (v : ℚ) : ℚ :=
  if tod = "Morning" then min 0.8 (v + 0.1) else v

/-- The time-of-day adjustment of energy: night lowers it with floor 0.3
(the morning branch touches only valence). -/
def timeAdjEnergy (tod : String) (e : ℚ) : ℚ :=
  if tod = "Night" then max 0.3 (e - 0.15) else e

/-- `calculate_music_targets` from feature_engineer.py: base values by
run type, then the temperature and time-of-day adjustments applied
sequentially, energy/valence rounded to two decimals, and
`target_tempo` passed through from `target_bpm` unchanged. -/
def calculateMusicTargets (f : MTFeatures) : MusicPred :=
  ⟨f.target_bpm,
   round2 (timeAdjEnergy f.time_of_day (runTypeEnergy f.run_type)),
   round2 (timeAdjValence f.time_of_day (tempAdjValence f.temp_bin (runTypeValence f.run_type)))⟩

/-- The run-feature dictionary passed to `predict_music_features`
(train_music_model.py), split into its numeric and categorical fields;
`none` models a missing key. -/
structure RunFeatures where
  num : String → Option ℚ
  cat : String → Option String

/-- A trained model artifact as saved by `train_all_models`: the feature
name lists plus the fitted label encoders, scaler and per-target
regressors, the latter three kept opaque. An encoder returning `none`
models the `ValueError` raised on an unseen category. -/
structure ModelArtifacts where
  numeric_features : List String
  categorical_features : List String
  encoders : String → String → Option ℤ
  scaler : List ℚ → List ℚ
  models : String → List ℚ → ℚ

/-- `NUMERIC_FEATURES` from train_music_model.py. -/
def NUMERIC_FEATURES : List String :=
  ["distance_km", "avg_pace_min_km", "temp_c", "precipitation", "windspeed_kmh",
   "humidity", "elevation_gain_m", "pace_consistency", "weekly_mileage_km"]

/-- `CATEGORICAL_FEATURES` from train_music_model.py. -/
def CATEGORICAL_FEATURES : List String :=
  ["time_of_day", "temp_bin", "run_length_bin", "run_type"]

/-- `predict_music_features` from train_music_model.py: extract numeric
features (default 0), encode categoricals (default "Unknown", encoder
failure mapped to 0), scale, predict each target, clip tempo to
[100, 200] and energy/valence to [0, 1], and round to two decimals. -/
def predictMusicFeatures (A : ModelArtifacts) (rf : RunFeatures) : MusicPred :=
  let nums := A.numeric_features.map (fun ft => (rf.num ft).getD 0)
  let cats := A.categorical_features.map
    (fun ft => (((A.encoders ft ((rf.cat ft).getD "Unknown")).getD 0 : ℤ) : ℚ))
  let Xs := A.scaler (nums ++ cats)
  let predFor := fun (target : String) =>
    let pred := A.models target Xs
    if target = "target_tempo" then round2 (max 100 (min 200 pred))
    else round2 (max 0 (min 1 pred))
  ⟨predFor "target_tempo", predFor "target_energy", predFor "target_valence"⟩

/-- A search-result track: external id (possibly missing), URI, name. -/
structure Track where
  id : Option String
  uri : String
  name : String
deriving DecidableEq

/-- An audio-features record returned by the audio-features endpoint. -/
structure AudioFeat where
  id : String
  tempo : ℚ
  energy : ℚ
  valence : ℚ
deriving DecidableEq

/-- Python's truthiness test `if t.get('id')`: a present, non-empty id. -/
def validId (t : Track) : Option String :=
  match t.id with
  | some s => if s = "" then none else some s
  | none => none

/-- `track_ids = [t['id'] for t in tracks if t.get('id')]`. -/
def trackIds (tracks : List Track) : List String := tracks.filterMap validId

/-- `SpotifyClient.get_audio_features_for_tracks` (spotify_client.py):
returns `[]` for an empty id list, otherwise queries the collaborator
with only the first 100 ids (`track_ids[:100]`). -/
def getAudioFeaturesForTracks (api : List String → List (Option AudioFeat))
    (track_ids : List String) : List (Option AudioFeat) :=
  if track_ids = [] then [] else api (track_ids.take 100)

/-- Lookup in `features_map = {f['id']: f for f in audio_features if f}`:
falsy (null) entries are dropped and, as in a Python dict display, a
later record with the same id overwrites an earlier one. -/
def featuresMapFind (feats : List (Option AudioFeat)) (tid : String) : Option AudioFeat :=
  ((feats.filterMap id).reverse).find? (fun f => decide (f.id = tid))

/-- `filter_tracks_by_audio_features` from alternative_recommender.py:
keep the tracks whose fetched audio features all lie within the given
tolerances of the targets; tracks with no (valid) id or no fetched
features are dropped. -/
def filterTracksByAudioFeatures (api : List String → List (Option AudioFeat))
    (tracks : List Track) (target_tempo target_energy target_valence : ℚ)
    (tempo_tolerance energy_tolerance valence_tolerance : ℚ) : List Track :=
  if tracks = [] then []
  else
    let feats := getAudioFeaturesForTracks api (trackIds tracks)
    tracks.filterMap (fun t =>
      match validId t with
      | none => none
      | some tid =>
        match featuresMapFind feats tid with
        | none => none
        | some f =>
          if |f.tempo - target_tempo| ≤ tempo_tolerance ∧
              |f.energy - target_energy| ≤ energy_tolerance ∧
              |f.valence - target_valence| ≤ valence_tolerance
          then some t else none)

/-- Steps 4 and the relaxation/failure logic of
`recommend_and_create_playlist` (alternative_recommender.py, lines
151-183): strict tolerances 25/0.25/0.35, one retry with 40/0.4/0.5 when
fewer than 15 tracks survive, `none` (pipeline failure, no playlist)
when nothing survives. -/
def selectFilteredTracks (api : List String → List (Option AudioFeat))
    (tracks : List Track) (tt te tv : ℚ) : Option (List Track) :=
  let strict := filterTracksByAudioFeatures api tracks tt te tv 25 0.25 0.35
  let final :=
    if strict.length < 15 then filterTracksByAudioFeatures api tracks tt te tv 40 0.4 0.5
    else strict
  if final = [] then none else some final

/-- One assignment `d[k] = v` on an insertion-ordered dict: an existing
key keeps its position but its value is replaced; a new key is appended. -/
def dictInsert (m : List (String × Track)) (k : String) (v : Track) : List (String × Track) :=
  if m.any (fun p => decide (p.1 = k)) then m.map (fun p => if p.1 = k then (k, v) else p)
  else m ++ [(k, v)]

/-- One step of the dict comprehension
`{t['id']: t for t in all_tracks if t.get('id')}`: tracks failing the
truthiness guard are skipped, the rest assigned under their id. -/
def dedupStep (m : List (String × Track)) (t : Track) : List (String × Track) :=
  match validId t with
  | some k => dictInsert m k t
  | none => m

/-- `unique_tracks = {t['id']: t for t in all_tracks if t.get('id')}`
followed by `list(unique_tracks.values())` (alternative_recommender.py
lines 146-149, ml_recommender.py lines 497-499). -/
def dedupTracks (ts : List Track) : List Track :=
  (ts.foldl dedupStep []).map Prod.snd

/-- The first-seen-order key list of a sequence of dict assignments,
starting from the keys already present in `acc`. -/
def firstSeenAcc (acc : List String) (l : List String) : List String :=
  l.foldl (fun a k => if k ∈ a then a else a ++ [k]) acc

/-- The keys of `{k: ... for k in l}` in dict order: first occurrences,
in order of first appearance. -/
def firstSeen (l : List String) : List String := firstSeenAcc [] l

/-- Effective index of a Python slice bound on a list of length `L`:
negative indices wrap by `+L` (clamped at 0), positive ones clamp at `L`. -/
def sliceIdx (L : ℕ) (i : ℤ) : ℕ := if i < 0 then (i + L).toNat else min i.toNat L

/-- Python `l[a:b]` with integer bounds. -/
def pySlice {α : Type} (l : List α) (a b : ℤ) : List α :=
  (l.take (sliceIdx l.length b)).drop (sliceIdx l.length a)

/-- The long-run branch of `create_progressive_playlist`
(ml_recommender.py), applied to the already-shuffled track list `s`:
`n = min(len(s), 30)`, `warmup_count = finish_count = max 3 (n / 5)`,
`main_count = n - warmup_count - finish_count` (an integer that can go
negative), and the three Python slices concatenated. -/
def progressiveSlices (s : List Track) : List Track :=
  let n : ℕ := min s.length 30
  let w : ℕ := max 3 (n / 5)
  let fc : ℕ := max 3 (n / 5)
  let m : ℤ := (n : ℤ) - w - fc
  pySlice s 0 w ++ pySlice s w (w + m) ++ pySlice s (w + m) (w + m + fc)

/-- `create_progressive_playlist` from ml_recommender.py. `random.shuffle`
is modelled by the function parameter `shuffle` (assumed in the theorems
to permute its input). Non-long or short runs: shuffle and keep the
first 30. Long runs of at least 12 km: one shuffle, then the
warm-up/main/finish slices of `progressiveSlices`. -/
def createProgressivePlaylist (shuffle : List Track → List Track)
    (tracks : List Track) (run_type : String) (distance_km : ℚ) : List Track :=
  if run_type ≠ "long" ∨ distance_km < 12 then (shuffle tracks).take 30
  else progressiveSlices (shuffle tracks)

/-- A record of `ml_featured_runs.json` as read by `analyze_recent_runs`
(ml_recommender.py). Timestamps are UTC seconds. -/
structure FeatRun where
  start_time_utc : ℤ
  distance_km : ℚ
  avg_pace_min_km : ℚ
  run_type : String
deriving DecidableEq

/-- The dictionary returned by `analyze_recent_runs`. The two early
returns carry no `pace_consistency`/`avg_pace_last_30d` keys, modelled
as `none`. -/
structure Analysis where
  suggested_pace : Option ℚ
  pace_range : Option (ℚ × ℚ)
  fatigue_level : String
  weekly_load : ℚ
  recent_runs_count : ℕ
  pace_consistency : Option ℚ
  avg_pace_last_30d : Option ℚ
deriving DecidableEq

/-- `analyze_recent_runs` from ml_recommender.py. `history = none` models
a missing `ml_featured_runs.json`; `statistics.stdev` is the opaque
parameter `stdev`; `now` is the current UTC time in seconds
(30 days = 2592000 s, 7 days = 604800 s). -/
def analyzeRecentRuns (stdev : List ℚ → ℚ) (history : Option (List FeatRun))
    (now : ℤ) (run_type : String) : Analysis :=
  match history with
  | none => ⟨none, none, "unknown", 0, 0, none, none⟩
  | some runs =>
    let recent_runs := runs.filter (fun r => decide (now - 2592000 ≤ r.start_time_utc))
    if recent_runs = [] then ⟨none, none, "fresh", 0, 0, none, none⟩
    else
      let weekly_runs := runs.filter (fun r => decide (now - 604800 ≤ r.start_time_utc))
      let weekly_distance := (weekly_runs.map FeatRun.distance_km).sum
      let type_runs0 := recent_runs.filter (fun r => decide (r.run_type = run_type))
      let type_runs := if type_runs0 = [] then recent_runs else type_runs0
      let paces := (type_runs.map FeatRun.avg_pace_min_km).filter (fun p => decide (0 < p))
      let sp : ℚ × (ℚ × ℚ) :=
        if paces = [] then (6, (5.5, 6.5))
        else
          let avg := paces.sum / paces.length
          let suggested := if run_type = "tempo" ∨ run_type = "interval" then avg - 0.05 else avg
          (suggested, (suggested - 0.15, suggested + 0.15))
      let fatigue_level :=
        if weekly_distance > 60 then "high_load"
        else if weekly_distance > 40 then "moderate"
        else if weekly_distance < 15 then "fresh"
        else "normal"
      let consistency := if 3 ≤ paces.length then stdev paces else 0.5
      let avg30 := if paces = [] then none else some (paces.sum / paces.length)
      ⟨some sp.1, some sp.2, fatigue_level, weekly_distance, recent_runs.length,
        some consistency, avg30⟩

/-- Concrete model artifact whose tempo regressor always predicts 150.5:
a legal artifact, since the fitted regressors are opaque averages. -/
def ceArtifacts : ModelArtifacts where
  numeric_features := NUMERIC_FEATURES
  categorical_features := CATEGORICAL_FEATURES
  encoders := fun _ _ => none
  scaler := fun X => X
  models := fun _ _ => 301 / 2

/-- A run-feature dictionary with every key missing. -/
def ceRunFeatures : RunFeatures := ⟨fun _ => none, fun _ => none⟩

/-- Two search results with the same track id but different payloads. -/
def ceTrackA : Track := ⟨some "x", "spotify:track:1", "First"⟩

/-- See `ceTrackA`. -/
def ceTrackB : Track := ⟨some "x", "spotify:track:2", "Second"⟩

/-- Five distinct candidate tracks for a long run. -/
def ceTracks5 : List Track :=
  [⟨some "a", "ua", "na"⟩, ⟨some "b", "ub", "nb"⟩, ⟨some "c", "uc", "nc"⟩,
   ⟨some "d", "ud", "nd"⟩, ⟨some "e", "ue", "ne"⟩]

/-- A candidate track with no id: skipped when ids are collected. -/
def ceTrackNoId : Track := ⟨none, "u0", "n0"⟩

/-- A filler candidate track. -/
def ceTrackF : Track := ⟨some "f", "uf", "nf"⟩

/-- The 101st candidate track. -/
def ceTrackG : Track := ⟨some "g", "ug", "ng"⟩

/-- 101 candidate tracks whose first member has no id, so only 100 ids
are collected and nothing is truncated away. -/
def ceTracks101 : List Track := ceTrackNoId :: (List.replicate 99 ceTrackF ++ [ceTrackG])

/-- An audio-features collaborator answering only for id "g", with
records echoing the requested id. -/
def ceApi : List String → List (Option AudioFeat) :=
  fun ids => ids.map (fun s => if s = "g" then some ⟨s, 140, 0, 0⟩ else none)

/-- A collaborator that returns nothing. -/
def ceApiEmpty : List String → List (Option AudioFeat) := fun _ => []

/-- Two id-bearing candidate tracks. -/
def ceTracks2 : List Track := [⟨some "p1", "v1", "m1"⟩, ⟨some "p2", "v2", "m2"⟩]

/-- A single recent featured run. -/
def ceFeatRun : FeatRun := ⟨0, 10, 6, "easy"⟩

section RoundingLemmas

theorem floor_le_rhe (q : ℚ) : ⌊q⌋ ≤ rhe q := by
  unfold rhe
  split_ifs with h1 h2
  · exact le_refl _
  · exact Int.le_add_one (le_refl _)
  · rw [round_eq]
    exact Int.floor_le_floor (by linarith)

theorem rhe_le_of_le (q : ℚ) (b : ℤ) (h : q ≤ b) : rhe q ≤ b := by
  unfold rhe
  split_ifs with h1 h2
  · exact Int.floor_le_floor h |>.trans_eq (Int.floor_intCast b)
  · have hfq : (⌊q⌋ : ℚ) = q - 1/2 := by linarith
    have : (⌊q⌋ : ℚ) < b := by rw [hfq]; linarith
    have hlt : ⌊q⌋ < b := by exact_mod_cast this
    omega
  · have : q + 1/2 < (b : ℚ) + 1 := by linarith
    calc round q = ⌊q + 1/2⌋ := by rw [round_eq]
    _ ≤ b := by
        rw [Int.floor_le_iff]
        linarith

theorem le_rhe_of_le (q : ℚ) (a : ℤ) (h : (a : ℚ) ≤ q) : a ≤ rhe q :=
  le_trans (Int.le_floor.mpr h) (floor_le_rhe q)

theorem round2_bounds (a b : ℤ) (q : ℚ) (h1 : (a : ℚ) ≤ q) (h2 : q ≤ (b : ℚ)) :
    (a : ℚ) ≤ round2 q ∧ round2 q ≤ (b : ℚ) := by
  unfold round2
  have ha : (100 * a : ℤ) ≤ rhe (100 * q) := by
    apply le_rhe_of_le; push_cast; linarith
  have hb : rhe (100 * q) ≤ (100 * b : ℤ) := by
    apply rhe_le_of_le; push_cast; linarith
  constructor
  · rw [le_div_iff₀ (by norm_num : (0:ℚ) < 100)]
    have : ((100 * a : ℤ) : ℚ) ≤ (rhe (100 * q) : ℚ) := by exact_mod_cast ha
    push_cast at this
    linarith
  · rw [div_le_iff₀ (by norm_num : (0:ℚ) < 100)]
    have : ((rhe (100 * q) : ℤ) : ℚ) ≤ ((100 * b : ℤ) : ℚ) := by exact_mod_cast hb
    push_cast at this
    linarith

theorem round2_twoDecimal (q : ℚ) : twoDecimal (round2 q) := ⟨rhe (100 * q), rfl⟩

end RoundingLemmas

section PaceLemmas

theorem bpm_of_lt_4 (p : ℚ) (h : p < 4) : mapPaceToBpm p = 185 := by
  unfold mapPaceToBpm
  rw [if_neg (by rintro ⟨a, b⟩; linarith), if_neg (by rintro ⟨a, b⟩; linarith),
    if_neg (by rintro ⟨a, b⟩; linarith), if_neg (by rintro ⟨a, b⟩; linarith),
    if_neg (by rintro ⟨a, b⟩; linarith), if_neg (by rintro ⟨a, b⟩; linarith), if_pos h]

theorem bpm_of_4_45 (p : ℚ) (h1 : 4 ≤ p) (h2 : p < 4.5) : mapPaceToBpm p = 180 := by
  unfold mapPaceToBpm
  rw [if_pos ⟨h1, h2⟩]

theorem bpm_of_45_5 (p : ℚ) (h1 : 4.5 ≤ p) (h2 : p < 5) : mapPaceToBpm p = 170 := by
  unfold mapPaceToBpm
  rw [if_neg (by rintro ⟨a, b⟩; norm_num at *; linarith), if_pos ⟨h1, h2⟩]

theorem bpm_of_5_55 (p : ℚ) (h1 : 5 ≤ p) (h2 : p < 5.5) : mapPaceToBpm p = 165 := by
  unfold mapPaceToBpm
  rw [if_neg (by rintro ⟨a, b⟩; norm_num at *; linarith),
    if_neg (by rintro ⟨a, b⟩; norm_num at *; linarith), if_pos ⟨h1, h2⟩]

theorem bpm_of_55_6 (p : ℚ) (h1 : 5.5 ≤ p) (h2 : p < 6) : mapPaceToBpm p = 160 := by
  unfold mapPaceToBpm
  rw [if_neg (by rintro ⟨a, b⟩; norm_num at *; linarith),
    if_neg (by rintro ⟨a, b⟩; norm_num at *; linarith),
    if_neg (by rintro ⟨a, b⟩; norm_num at *; linarith), if_pos ⟨h1, h2⟩]

theorem bpm_of_6_7 (p : ℚ) (h1 : 6 ≤ p) (h2 : p < 7) : mapPaceToBpm p = 150 := by
  unfold mapPaceToBpm
  rw [if_neg (by rintro ⟨a, b⟩; norm_num at *; linarith),
    if_neg (by rintro ⟨a, b⟩; norm_num at *; linarith),
    if_neg (by rintro ⟨a, b⟩; norm_num at *; linarith),
    if_neg (by rintro ⟨a, b⟩; norm_num at *; linarith), if_pos ⟨h1, h2⟩]

theorem bpm_of_7_8 (p : ℚ) (h1 : 7 ≤ p) (h2 : p < 8) : mapPaceToBpm p = 140 := by
  unfold mapPaceToBpm
  rw [if_neg (by rintro ⟨a, b⟩; norm_num at *; linarith),
    if_neg (by rintro ⟨a, b⟩; norm_num at *; linarith),
    if_neg (by rintro ⟨a, b⟩; norm_num at *; linarith),
    if_neg (by rintro ⟨a, b⟩; norm_num at *; linarith),
    if_neg (by rintro ⟨a, b⟩; norm_num at *; linarith), if_pos ⟨h1, h2⟩]

theorem bpm_of_ge_8 (p : ℚ) (h : 8 ≤ p) : mapPaceToBpm p = 135 := by
  unfold mapPaceToBpm
  rw [if_neg (by rintro ⟨a, b⟩; norm_num at *; linarith),
    if_neg (by rintro ⟨a, b⟩; norm_num at *; linarith),
    if_neg (by rintro ⟨a, b⟩; norm_num at *; linarith),
    if_neg (by rintro ⟨a, b⟩; norm_num at *; linarith),
    if_neg (by rintro ⟨a, b⟩; norm_num at *; linarith),
    if_neg (by rintro ⟨a, b⟩; norm_num at *; linarith),
    if_neg (by linarith)]

/-- Region decomposition of `mapPaceToBpm`: every pace falls in exactly
one of the eight regions of the table. -/
theorem bpm_regions (p : ℚ) :
    (p < 4 ∧ mapPaceToBpm p = 185) ∨
    (4 ≤ p ∧ p < 4.5 ∧ mapPaceToBpm p = 180) ∨
    (4.5 ≤ p ∧ p < 5 ∧ mapPaceToBpm p = 170) ∨
    (5 ≤ p ∧ p < 5.5 ∧ mapPaceToBpm p = 165) ∨
    (5.5 ≤ p ∧ p < 6 ∧ mapPaceToBpm p = 160) ∨
    (6 ≤ p ∧ p < 7 ∧ mapPaceToBpm p = 150) ∨
    (7 ≤ p ∧ p < 8 ∧ mapPaceToBpm p = 140) ∨
    (8 ≤ p ∧ mapPaceToBpm p = 135) := by
  rcases lt_or_le p 4 with h | h4
  · exact Or.inl ⟨h, bpm_of_lt_4 p h⟩
  rcases lt_or_le p 4.5 with h | h45
  · exact Or.inr (Or.inl ⟨h4, h, bpm_of_4_45 p h4 h⟩)
  rcases lt_or_le p 5 with h | h5
  · exact Or.inr (Or.inr (Or.inl ⟨h45, h, bpm_of_45_5 p h45 h⟩))
  rcases lt_or_le p 5.5 with h | h55
  · exact Or.inr (Or.inr (Or.inr (Or.inl ⟨h5, h, bpm_of_5_55 p h5 h⟩)))
  rcases lt_or_le p 6 with h | h6
  · exact Or.inr (Or.inr (Or.inr (Or.inr (Or.inl ⟨h55, h, bpm_of_55_6 p h55 h⟩))))
  rcases lt_or_le p 7 with h | h7
  · exact Or.inr (Or.inr (Or.inr (Or.inr (Or.inr (Or.inl ⟨h6, h, bpm_of_6_7 p h6 h⟩)))))
  rcases lt_or_le p 8 with h | h8
  · exact Or.inr (Or.inr (Or.inr (Or.inr (Or.inr (Or.inr (Or.inl ⟨h7, h, bpm_of_7_8 p h7 h⟩))))))
  · exact Or.inr (Or.inr (Or.inr (Or.inr (Or.inr (Or.inr (Or.inr ⟨h8, bpm_of_ge_8 p h8⟩))))))

theorem bpm_antitone (p q : ℚ) (hpq : p ≤ q) : mapPaceToBpm q ≤ mapPaceToBpm p := by
  rcases bpm_regions p with ⟨h1, e1⟩ | ⟨h1, h2, e1⟩ | ⟨h1, h2, e1⟩ | ⟨h1, h2, e1⟩ |
      ⟨h1, h2, e1⟩ | ⟨h1, h2, e1⟩ | ⟨h1, h2, e1⟩ | ⟨h1, e1⟩ <;>
    rcases bpm_regions q with ⟨h3, e2⟩ | ⟨h3, h4, e2⟩ | ⟨h3, h4, e2⟩ | ⟨h3, h4, e2⟩ |
        ⟨h3, h4, e2⟩ | ⟨h3, h4, e2⟩ | ⟨h3, h4, e2⟩ | ⟨h3, e2⟩ <;>
      rw [e1, e2] <;>
    first
      | decide
      | (exfalso; linarith)

end PaceLemmas

section WeeklyMileageLemmas

theorem weeklyMileage_foldl (t : ℤ) : ∀ (hist : List RunEntry) (acc : ℚ),
    hist.foldl
      (fun acc r =>
        match r.start_time with
        | none => acc
        | some s =>
          if t - 604800 ≤ s ∧ s < t then acc + (r.distance_m.getD 0) / 1000 else acc)
      acc
    = acc + ((hist.filter (fun r => inWindow t r)).map (fun r => (r.distance_m.getD 0) / 1000)).sum := by
  intro hist
  induction hist with
  | nil => intro acc; simp
  | cons r hist ih =>
    intro acc
    rw [List.foldl_cons, List.filter_cons]
    cases hst : r.start_time with
    | none =>
      have hw : inWindow t r = false := by simp [inWindow, hst]
      rw [hw, ih]
      simp
    | some s =>
      rw [ih]
      by_cases hc : t - 604800 ≤ s ∧ s < t
      · have hw : inWindow t r = true := by simp [inWindow, hst, hc]
        rw [hw]
        show (if t - 604800 ≤ s ∧ s < t then acc + (r.distance_m.getD 0) / 1000 else acc) + _ = _
        rw [if_pos hc]
        simp only [if_true, List.map_cons, List.sum_cons]
        ring
      · have hw : inWindow t r = false := by
          simp only [inWindow, hst, decide_eq_false_iff_not]
          omega
        rw [hw]
        show (if t - 604800 ≤ s ∧ s < t then acc + (r.distance_m.getD 0) / 1000 else acc) + _ = _
        rw [if_neg hc]
        simp

end WeeklyMileageLemmas

section MusicTargetLemmas

theorem runTypeEnergy_bounds (rt : String) : 0 ≤ runTypeEnergy rt ∧ runTypeEnergy rt ≤ 1 := by
  unfold runTypeEnergy
  split_ifs <;> norm_num

theorem runTypeValence_bounds (rt : String) : 0 ≤ runTypeValence rt ∧ runTypeValence rt ≤ 1 := by
  unfold runTypeValence
  split_ifs <;> norm_num

theorem tempAdjValence_bounds (tb : String) (v : ℚ) (h0 : 0 ≤ v) (h1 : v ≤ 1) :
    0 ≤ tempAdjValence tb v ∧ tempAdjValence tb v ≤ 1 := by
  unfold tempAdjValence
  split_ifs
  · exact ⟨le_trans (by norm_num) (le_max_left _ _), max_le (by norm_num) (by linarith)⟩
  · exact ⟨le_min (by norm_num) (by linarith), le_trans (min_le_left _ _) (by norm_num)⟩
  · exact ⟨h0, h1⟩

theorem timeAdjValence_bounds (tod : String) (v : ℚ) (h0 : 0 ≤ v) (h1 : v ≤ 1) :
    0 ≤ timeAdjValence tod v ∧ timeAdjValence tod v ≤ 1 := by
  unfold timeAdjValence
  split_ifs
  · exact ⟨le_min (by norm_num) (by linarith), le_trans (min_le_left _ _) (by norm_num)⟩
  · exact ⟨h0, h1⟩

theorem timeAdjEnergy_bounds (tod : String) (e : ℚ) (h0 : 0 ≤ e) (h1 : e ≤ 1) :
    0 ≤ timeAdjEnergy tod e ∧ timeAdjEnergy tod e ≤ 1 := by
  unfold timeAdjEnergy
  split_ifs
  · exact ⟨le_trans (by norm_num) (le_max_left _ _), max_le (by norm_num) (by linarith)⟩
  · exact ⟨h0, h1⟩

theorem round2_unit_bounds (q : ℚ) (h0 : 0 ≤ q) (h1 : q ≤ 1) :
    0 ≤ round2 q ∧ round2 q ≤ 1 := by
  have h := round2_bounds 0 1 q (by exact_mod_cast h0) (by exact_mod_cast h1)
  exact ⟨by exact_mod_cast h.1, by exact_mod_cast h.2⟩

end MusicTargetLemmas

/-- C4: `map_pace_to_bpm` is monotonically non-increasing as pace
increases; it takes the table value on each half-open interval
([4,4.5)→180, [4.5,5)→170, [5,5.5)→165, [5.5,6)→160, [6,7)→150,
[7,8)→140), 185 below all lower bounds, 135 at or above all upper
bounds; and the boundary pace 4.5 maps to the interval where it is the
lower bound. -/
theorem pace_to_bpm_profile :
    (∀ p q : ℚ, p ≤ q → mapPaceToBpm q ≤ mapPaceToBpm p) ∧
    (∀ p : ℚ, 4 ≤ p → p < 4.5 → mapPaceToBpm p = 180) ∧
    (∀ p : ℚ, 4.5 ≤ p → p < 5 → mapPaceToBpm p = 170) ∧
    (∀ p : ℚ, 5 ≤ p → p < 5.5 → mapPaceToBpm p = 165) ∧
    (∀ p : ℚ, 5.5 ≤ p → p < 6 → mapPaceToBpm p = 160) ∧
    (∀ p : ℚ, 6 ≤ p → p < 7 → mapPaceToBpm p = 150) ∧
    (∀ p : ℚ, 7 ≤ p → p < 8 → mapPaceToBpm p = 140) ∧
    (∀ p : ℚ, p < 4 → mapPaceToBpm p = 185) ∧
    (∀ p : ℚ, 8 ≤ p → mapPaceToBpm p = 135) ∧
    mapPaceToBpm 4.5 = 170 :=
  ⟨bpm_antitone, bpm_of_4_45, bpm_of_45_5, bpm_of_5_55, bpm_of_55_6, bpm_of_6_7,
   bpm_of_7_8, bpm_of_lt_4, bpm_of_ge_8, bpm_of_45_5 4.5 (le_refl _) (by norm_num)⟩

/-- Closed instance of `pace_to_bpm_profile`. -/
theorem pace_to_bpm_profile_witness :
    mapPaceToBpm 6 ≤ mapPaceToBpm 5 ∧ mapPaceToBpm 4.2 = 180 :=
  ⟨pace_to_bpm_profile.1 5 6 (by norm_num),
   pace_to_bpm_profile.2.1 4.2 (by norm_num) (by norm_num)⟩

/-- C5: the weekly mileage equals the sum of `distance_m / 1000` over
exactly the history entries whose timestamp lies in the window
`[t - 7 days, t)` — inclusive of the lower bound, exclusive of `t`
itself, as the two boundary conjuncts spell out. -/
theorem weekly_mileage_window (hist : List RunEntry) (t : ℤ) :
    getWeeklyMileage hist t =
      ((hist.filter (fun r => inWindow t r)).map (fun r => (r.distance_m.getD 0) / 1000)).sum ∧
    (∀ dm : Option ℚ, inWindow t ⟨some (t - 604800), dm⟩ = true) ∧
    (∀ dm : Option ℚ, inWindow t ⟨some t, dm⟩ = false) := by
  refine ⟨?_, ?_, ?_⟩
  · unfold getWeeklyMileage
    rw [weeklyMileage_foldl, zero_add]
  · intro dm
    simp only [inWindow, decide_eq_true_eq]
    omega
  · intro dm
    simp only [inWindow, decide_eq_false_iff_not]
    omega

/-- C6: `detect_run_type` follows exactly the precedence order stated in
the spec: name keywords first (interval, tempo, easy, race lists), then
`distance > 15 → long`, then the pace thresholds, then `steady`. -/
theorem detect_run_type_precedence (run_name : String) (pace_min_km distance_km : ℚ) :
    detectRunType run_name pace_min_km distance_km =
      detectRunTypeSpec run_name pace_min_km distance_km := by
  unfold detectRunType detectRunTypeSpec
  split_ifs <;> rfl

/-- C7: the rule-based mapper always returns energy and valence within
[0, 1] and rounded to two decimals, while `target_tempo` is the input
`target_bpm` passed through with no clamping at all (in particular a
`target_bpm` of 300 is returned as is). -/
theorem music_targets_invariant (f : MTFeatures) :
    (0 ≤ (calculateMusicTargets f).target_energy ∧
      (calculateMusicTargets f).target_energy ≤ 1 ∧
      twoDecimal (calculateMusicTargets f).target_energy) ∧
    (0 ≤ (calculateMusicTargets f).target_valence ∧
      (calculateMusicTargets f).target_valence ≤ 1 ∧
      twoDecimal (calculateMusicTargets f).target_valence) ∧
    (calculateMusicTargets f).target_tempo = f.target_bpm ∧
    (calculateMusicTargets ⟨300, "steady", "Mild", "Afternoon"⟩).target_tempo = 300 := by
  have he := runTypeEnergy_bounds f.run_type
  have he' := timeAdjEnergy_bounds f.time_of_day _ he.1 he.2
  have hv := runTypeValence_bounds f.run_type
  have hv' := tempAdjValence_bounds f.temp_bin _ hv.1 hv.2
  have hv'' := timeAdjValence_bounds f.time_of_day _ hv'.1 hv'.2
  have hE := round2_unit_bounds _ he'.1 he'.2
  have hV := round2_unit_bounds _ hv''.1 hv''.2
  exact ⟨⟨hE.1, hE.2, round2_twoDecimal _⟩, ⟨hV.1, hV.2, round2_twoDecimal _⟩, rfl, rfl⟩

section PredictLemmas

theorem clip_round_bounds (lo hi : ℤ) (h : (lo : ℚ) ≤ (hi : ℚ)) (x : ℚ) :
    (lo : ℚ) ≤ round2 (max lo (min hi x)) ∧ round2 (max lo (min hi x)) ≤ (hi : ℚ) :=
  round2_bounds lo hi _ (le_max_left _ _) (max_le h (min_le_left _ _))

end PredictLemmas

/-- C1 (amended): for every model artifact and run-feature dictionary,
each of the three predictions is clipped to its valid range and rounded
to two decimals: target_tempo lies in [100, 200] and target_energy,
target_valence lie in [0, 1]. The tempo is rounded to two decimals like
the others, not to an integer. -/
theorem predict_output_ranges (A : ModelArtifacts) (rf : RunFeatures) :
    (100 ≤ (predictMusicFeatures A rf).target_tempo ∧
      (predictMusicFeatures A rf).target_tempo ≤ 200 ∧
      twoDecimal (predictMusicFeatures A rf).target_tempo) ∧
    (0 ≤ (predictMusicFeatures A rf).target_energy ∧
      (predictMusicFeatures A rf).target_energy ≤ 1 ∧
      twoDecimal (predictMusicFeatures A rf).target_energy) ∧
    (0 ≤ (predictMusicFeatures A rf).target_valence ∧
      (predictMusicFeatures A rf).target_valence ≤ 1 ∧
      twoDecimal (predictMusicFeatures A rf).target_valence) := by
  simp only [predictMusicFeatures]
  have ht := clip_round_bounds 100 200 (by norm_num)
    (A.models "target_tempo" (A.scaler
      (A.numeric_features.map (fun ft => (rf.num ft).getD 0) ++
        A.categorical_features.map
          (fun ft => (((A.encoders ft ((rf.cat ft).getD "Unknown")).getD 0 : ℤ) : ℚ)))))
  have he := clip_round_bounds 0 1 (by norm_num)
    (A.models "target_energy" (A.scaler
      (A.numeric_features.map (fun ft => (rf.num ft).getD 0) ++
        A.categorical_features.map
          (fun ft => (((A.encoders ft ((rf.cat ft).getD "Unknown")).getD 0 : ℤ) : ℚ)))))
  have hv := clip_round_bounds 0 1 (by norm_num)
    (A.models "target_valence" (A.scaler
      (A.numeric_features.map (fun ft => (rf.num ft).getD 0) ++
        A.categorical_features.map
          (fun ft => (((A.encoders ft ((rf.cat ft).getD "Unknown")).getD 0 : ℤ) : ℚ)))))
  push_cast at ht he hv
  refine ⟨⟨?_, ?_, ?_⟩, ⟨?_, ?_, ?_⟩, ⟨?_, ?_, ?_⟩⟩ <;>
    simp only [String.reduceEq, if_true, if_false, reduceIte] <;>
    first
      | exact ht.1
      | exact ht.2
      | exact he.1
      | exact he.2
      | exact hv.1
      | exact hv.2
      | exact round2_twoDecimal _

/-- C1 counterexample: an artifact whose tempo regressor predicts 150.5
yields target_tempo = 150.5, which is not an integer — refuting the
claim that target_tempo is an integer. -/
theorem predict_tempo_not_integer :
    ¬ ∃ k : ℤ, (predictMusicFeatures ceArtifacts ceRunFeatures).target_tempo = (k : ℚ) := by
  have hval : (predictMusicFeatures ceArtifacts ceRunFeatures).target_tempo = 301 / 2 := by
    simp only [predictMusicFeatures, ceArtifacts, String.reduceEq, reduceIte, if_true]
    have h1 : min (200 : ℚ) (301 / 2) = 301 / 2 := min_eq_right (by norm_num)
    have h2 : max (100 : ℚ) (301 / 2) = 301 / 2 := max_eq_right (by norm_num)
    rw [h1, h2]
    have h3 : (100 : ℚ) * (301 / 2) = ((15050 : ℤ) : ℚ) := by norm_num
    have h4 : rhe ((15050 : ℤ) : ℚ) = 15050 := by
      unfold rhe
      rw [Int.floor_intCast]
      rw [if_neg (by norm_num), round_intCast]
    unfold round2
    rw [h3, h4]
    norm_num
  rintro ⟨k, hk⟩
  rw [hval] at hk
  have h301 : (301 : ℚ) = 2 * (k : ℚ) := by
    rw [div_eq_iff (by norm_num : (2:ℚ) ≠ 0)] at hk
    linarith
  have h301' : (301 : ℤ) = 2 * k := by exact_mod_cast h301
  omega

section FilterEvalLemmas

theorem filterTracks_apiEmpty (tracks : List Track) (tt te tv tlt tle tlv : ℚ) :
    filterTracksByAudioFeatures ceApiEmpty tracks tt te tv tlt tle tlv = [] := by
  unfold filterTracksByAudioFeatures
  split_ifs with h
  · rfl
  · have hf : getAudioFeaturesForTracks ceApiEmpty (trackIds tracks) = [] := by
      unfold getAudioFeaturesForTracks ceApiEmpty
      split_ifs <;> rfl
    rw [hf]
    refine List.filterMap_eq_nil_iff.mpr ?_
    intro a _
    cases hv : validId a <;> simp [hv, featuresMapFind]

end FilterEvalLemmas

/-- C3: with the strict tolerances (±25 BPM, ±0.25 energy, ±0.35
valence), if fewer than 15 tracks survive, the selection is retried
exactly once with the relaxed tolerances (±40, ±0.4, ±0.5) and its
result is used; if nothing survives, the pipeline reports failure
(`none`) and never returns an empty success. -/
theorem filter_relaxation_policy (api : List String → List (Option AudioFeat))
    (tracks : List Track) (tt te tv : ℚ) :
    (((filterTracksByAudioFeatures api tracks tt te tv 25 0.25 0.35).length < 15 →
      selectFilteredTracks api tracks tt te tv =
        (if filterTracksByAudioFeatures api tracks tt te tv 40 0.4 0.5 = [] then none
         else some (filterTracksByAudioFeatures api tracks tt te tv 40 0.4 0.5)))) ∧
    ((15 ≤ (filterTracksByAudioFeatures api tracks tt te tv 25 0.25 0.35).length →
      selectFilteredTracks api tracks tt te tv =
        some (filterTracksByAudioFeatures api tracks tt te tv 25 0.25 0.35))) ∧
    (∀ l, selectFilteredTracks api tracks tt te tv = some l → l ≠ []) := by
  refine ⟨?_, ?_, ?_⟩
  · intro h
    simp only [selectFilteredTracks]
    rw [if_pos h]
  · intro h
    simp only [selectFilteredTracks]
    split_ifs with h1 h2 h3
    · exact absurd h1 (by omega)
    · exact absurd h1 (by omega)
    · exfalso
      rw [h3] at h
      simp at h
    · rfl
  · intro l hl hleq
    subst hleq
    simp only [selectFilteredTracks] at hl
    split_ifs at hl <;> simp_all

/-- Closed instance of `filter_relaxation_policy`: a collaborator that
returns no audio features leaves both filter passes empty, and the
pipeline reports failure instead of an empty playlist. -/
theorem filter_relaxation_policy_witness :
    selectFilteredTracks ceApiEmpty ceTracks2 140 0 0 = none := by
  have h := (filter_relaxation_policy ceApiEmpty ceTracks2 140 0 0).1
    (by rw [filterTracks_apiEmpty]; simp)
  rw [filterTracks_apiEmpty] at h
  simpa using h

/-- C8 (amended): a missing history file yields the all-unknown/zero
result; an empty (or entirely stale) run list yields the zero result
with fatigue "fresh", not "unknown", and no error; and on a non-empty
recent history the fatigue label follows the weekly-distance thresholds:
above 60 km high_load, above 40 km moderate, below 15 km fresh,
otherwise normal. -/
theorem analyze_fatigue_policy (stdev : List ℚ → ℚ) (now : ℤ) (rt : String) :
    analyzeRecentRuns stdev none now rt = ⟨none, none, "unknown", 0, 0, none, none⟩ ∧
    analyzeRecentRuns stdev (some []) now rt = ⟨none, none, "fresh", 0, 0, none, none⟩ ∧
    (∀ runs : List FeatRun,
      runs.filter (fun r => decide (now - 2592000 ≤ r.start_time_utc)) ≠ [] →
      (((analyzeRecentRuns stdev (some runs) now rt).fatigue_level = "high_load" ↔
          60 < (analyzeRecentRuns stdev (some runs) now rt).weekly_load) ∧
        ((analyzeRecentRuns stdev (some runs) now rt).fatigue_level = "moderate" ↔
          40 < (analyzeRecentRuns stdev (some runs) now rt).weekly_load ∧
            (analyzeRecentRuns stdev (some runs) now rt).weekly_load ≤ 60) ∧
        ((analyzeRecentRuns stdev (some runs) now rt).fatigue_level = "fresh" ↔
          (analyzeRecentRuns stdev (some runs) now rt).weekly_load < 15) ∧
        ((analyzeRecentRuns stdev (some runs) now rt).fatigue_level = "normal" ↔
          15 ≤ (analyzeRecentRuns stdev (some runs) now rt).weekly_load ∧
            (analyzeRecentRuns stdev (some runs) now rt).weekly_load ≤ 40))) := by
  refine ⟨rfl, by simp [analyzeRecentRuns], ?_⟩
  intro runs hne
  simp only [analyzeRecentRuns]
  rw [if_neg hne]
  dsimp only []
  split_ifs with h1 h2 h3
  · exact ⟨⟨fun _ => h1, fun _ => rfl⟩,
      ⟨fun hx => absurd hx (by simp), fun hx => absurd hx.2 (by linarith)⟩,
      ⟨fun hx => absurd hx (by simp), fun hx => absurd hx (by linarith)⟩,
      ⟨fun hx => absurd hx (by simp), fun hx => absurd hx.2 (by linarith)⟩⟩
  · exact ⟨⟨fun hx => absurd hx (by simp), fun hx => absurd hx (by linarith)⟩,
      ⟨fun _ => ⟨by linarith, by linarith⟩, fun _ => rfl⟩,
      ⟨fun hx => absurd hx (by simp), fun hx => absurd hx (by linarith)⟩,
      ⟨fun hx => absurd hx (by simp), fun hx => absurd hx.2 (by linarith)⟩⟩
  · exact ⟨⟨fun hx => absurd hx (by simp), fun hx => absurd hx (by linarith)⟩,
      ⟨fun hx => absurd hx (by simp), fun hx => absurd hx.1 (by linarith)⟩,
      ⟨fun _ => h3, fun _ => rfl⟩,
      ⟨fun hx => absurd hx (by simp), fun hx => absurd hx.1 (by linarith)⟩⟩
  · exact ⟨⟨fun hx => absurd hx (by simp), fun hx => absurd hx (by linarith)⟩,
      ⟨fun hx => absurd hx (by simp), fun hx => absurd hx.1 (by linarith)⟩,
      ⟨fun hx => absurd hx (by simp), fun hx => absurd hx (by linarith)⟩,
      ⟨fun _ => ⟨by linarith, by linarith⟩, fun _ => rfl⟩⟩

/-- Closed instance of `analyze_fatigue_policy` at a one-run history. -/
theorem analyze_fatigue_policy_witness :
    ((analyzeRecentRuns (fun _ => 0) (some [ceFeatRun]) 0 "easy").fatigue_level = "fresh" ↔
      (analyzeRecentRuns (fun _ => 0) (some [ceFeatRun]) 0 "easy").weekly_load < 15) := by
  have h := (analyze_fatigue_policy (fun _ => 0) 0 "easy").2.2 [ceFeatRun] (by decide)
  exact h.2.2.1

/-- C8 counterexample: an empty history list (the file exists but holds
no runs) yields fatigue_level "fresh", not the "unknown" the claim
demands for an empty history. -/
theorem analyze_empty_history_fresh :
    (analyzeRecentRuns (fun _ => 0) (some []) 0 "easy").fatigue_level = "fresh" ∧
    ("fresh" : String) ≠ "unknown" := by
  constructor
  · simp [analyzeRecentRuns]
  · decide

section DedupLemmas

theorem dictInsert_keys (m : List (String × Track)) (k : String) (v : Track) :
    (dictInsert m k v).map Prod.fst =
      if k ∈ m.map Prod.fst then m.map Prod.fst else m.map Prod.fst ++ [k] := by
  unfold dictInsert
  by_cases h : k ∈ m.map Prod.fst
  · have hany : (m.any (fun p => decide (p.1 = k))) = true := by
      rw [List.any_eq_true]
      rw [List.mem_map] at h
      obtain ⟨p, hp, hpk⟩ := h
      exact ⟨p, hp, by simp [hpk]⟩
    rw [if_pos hany, if_pos h, List.map_map]
    apply List.map_congr_left
    intro p _
    by_cases hpk : p.1 = k
    · simp [hpk]
    · simp [hpk]
  · have hany : (m.any (fun p => decide (p.1 = k))) = false := by
      rw [List.any_eq_false]
      intro p hp
      simp only [decide_eq_true_eq]
      intro heq
      exact h (List.mem_map.mpr ⟨p, hp, heq⟩)
    rw [if_neg (by simp [hany]), if_neg h, List.map_append]
    rfl

theorem firstSeenAcc_cons (acc : List String) (k : String) (l : List String) :
    firstSeenAcc acc (k :: l) = firstSeenAcc (if k ∈ acc then acc else acc ++ [k]) l := rfl

theorem dedupFold_keys (ts : List Track) : ∀ (m : List (String × Track)),
    ((ts.foldl dedupStep m).map Prod.fst) =
      firstSeenAcc (m.map Prod.fst) (ts.filterMap validId) := by
  induction ts with
  | nil => intro m; rfl
  | cons t ts ih =>
    intro m
    rw [List.foldl_cons]
    cases hv : validId t with
    | none =>
      have hstep : dedupStep m t = m := by unfold dedupStep; rw [hv]
      rw [hstep, ih, List.filterMap_cons_none hv]
    | some k =>
      have hstep : dedupStep m t = dictInsert m k t := by unfold dedupStep; rw [hv]
      rw [hstep, ih, List.filterMap_cons_some hv, firstSeenAcc_cons, dictInsert_keys]

theorem dictInsert_entry_cases (m : List (String × Track)) (k₀ : String) (t : Track)
    (p : String × Track) (hp : p ∈ dictInsert m k₀ t) :
    (p.1 = k₀ ∧ p.2 = t) ∨ (p ∈ m ∧ p.1 ≠ k₀) := by
  unfold dictInsert at hp
  split_ifs at hp with hany
  · rw [List.mem_map] at hp
    obtain ⟨q, hq, hqe⟩ := hp
    by_cases hqk : q.1 = k₀
    · rw [if_pos hqk] at hqe
      left
      rw [← hqe]
      exact ⟨rfl, rfl⟩
    · rw [if_neg hqk] at hqe
      right
      rw [← hqe]
      exact ⟨hq, hqk⟩
  · rw [List.mem_append] at hp
    rcases hp with hp | hp
    · right
      refine ⟨hp, ?_⟩
      intro hk
      apply hany
      rw [List.any_eq_true]
      exact ⟨p, hp, by simp [hk]⟩
    · left
      rw [List.mem_singleton] at hp
      rw [hp]
      exact ⟨rfl, rfl⟩

theorem dedupFold_entry_key (ts : List Track) : ∀ (m : List (String × Track)),
    (∀ p ∈ m, validId p.2 = some p.1) →
    ∀ p ∈ ts.foldl dedupStep m, validId p.2 = some p.1 := by
  induction ts with
  | nil => intro m hm; exact hm
  | cons t ts ih =>
    intro m hm
    rw [List.foldl_cons]
    apply ih
    intro p hp
    cases hv : validId t with
    | none =>
      have hstep : dedupStep m t = m := by unfold dedupStep; rw [hv]
      rw [hstep] at hp
      exact hm p hp
    | some k =>
      have hstep : dedupStep m t = dictInsert m k t := by unfold dedupStep; rw [hv]
      rw [hstep] at hp
      rcases dictInsert_entry_cases m k t p hp with ⟨h1, h2⟩ | ⟨h1, _⟩
      · rw [h1, h2, hv]
      · exact hm p h1

theorem dedupFold_last_wins (ts : List Track) : ∀ (m : List (String × Track)),
    ∀ p ∈ ts.foldl dedupStep m,
      (ts.filter (fun u => decide (validId u = some p.1))).getLast? = some p.2 ∨
      ((ts.filter (fun u => decide (validId u = some p.1))) = [] ∧ p ∈ m) := by
  induction ts with
  | nil => intro m p hp; exact Or.inr ⟨rfl, hp⟩
  | cons t ts ih =>
    intro m p hp
    rw [List.foldl_cons] at hp
    rw [List.filter_cons]
    cases hv : validId t with
    | none =>
      have hstep : dedupStep m t = m := by unfold dedupStep; rw [hv]
      rw [hstep] at hp
      rw [if_neg (by simp)]
      exact ih m p hp
    | some k =>
      have hstep : dedupStep m t = dictInsert m k t := by unfold dedupStep; rw [hv]
      rw [hstep] at hp
      by_cases hk : k = p.1
      · rw [if_pos (by simp [hk])]
        rcases ih _ p hp with h | ⟨h1, h2⟩
        · left
          have := List.mem_getLast?_cons (y := t) (Option.mem_def.mpr h)
          exact Option.mem_def.mp this
        · rcases dictInsert_entry_cases m k t p h2 with ⟨_, hpt⟩ | ⟨_, hne⟩
          · left
            rw [h1, hpt]
            rfl
          · exact absurd hk.symm hne
      · rw [if_neg (by simp [hk])]
        rcases ih _ p hp with h | ⟨h1, h2⟩
        · exact Or.inl h
        · rcases dictInsert_entry_cases m k t p h2 with ⟨hk1, _⟩ | ⟨h3, _⟩
          · exact absurd hk1.symm hk
          · exact Or.inr ⟨h1, h3⟩

theorem firstSeenAcc_nodup (l : List String) : ∀ (acc : List String),
    acc.Nodup → (firstSeenAcc acc l).Nodup := by
  induction l with
  | nil => intro acc h; exact h
  | cons k l ih =>
    intro acc h
    rw [firstSeenAcc_cons]
    by_cases hk : k ∈ acc
    · rw [if_pos hk]
      exact ih acc h
    · rw [if_neg hk]
      apply ih
      rw [List.nodup_append]
      refine ⟨h, List.nodup_singleton k, ?_⟩
      intro a ha hb
      rw [List.mem_singleton] at hb
      exact hk (hb ▸ ha)

end DedupLemmas

/-- C2 (amended): deduplication by track id yields each (truthy) id
exactly once, in order of first appearance; but for a duplicated id the
dict comprehension keeps the LAST occurrence's track object (a later
duplicate overwrites the earlier one at its original position), not the
first. -/
theorem dedup_each_id_once_last_wins (ts : List Track) :
    (dedupTracks ts).map validId = (firstSeen (ts.filterMap validId)).map some ∧
    (firstSeen (ts.filterMap validId)).Nodup ∧
    (∀ t ∈ dedupTracks ts, ∃ k, validId t = some k ∧
      (ts.filter (fun u => decide (validId u = some k))).getLast? = some t) := by
  refine ⟨?_, firstSeenAcc_nodup _ [] List.nodup_nil, ?_⟩
  · unfold dedupTracks firstSeen
    have hkeys := dedupFold_keys ts []
    simp only [List.map_nil] at hkeys
    have hinv := dedupFold_entry_key ts [] (by simp)
    rw [List.map_map, ← hkeys, List.map_map]
    apply List.map_congr_left
    intro p hp
    exact hinv p hp
  · intro t ht
    unfold dedupTracks at ht
    rw [List.mem_map] at ht
    obtain ⟨p, hp, hpt⟩ := ht
    refine ⟨p.1, ?_, ?_⟩
    · rw [← hpt]
      exact dedupFold_entry_key ts [] (by simp) p hp
    · rcases dedupFold_last_wins ts [] p hp with h | ⟨_, h2⟩
      · rw [← hpt]
        exact h
      · simp at h2

/-- Closed instance of `dedup_each_id_once_last_wins`. -/
theorem dedup_each_id_once_last_wins_witness :
    ∃ k, validId ceTrackA = some k ∧
      ([ceTrackA].filter (fun u => decide (validId u = some k))).getLast? = some ceTrackA := by
  have h := (dedup_each_id_once_last_wins [ceTrackA]).2.2
  exact h ceTrackA (by decide)

/-- C2 counterexample: two search results with the same id but different
payloads; deduplication keeps the SECOND one, so the first occurrence
does not win. -/
theorem dedup_first_does_not_win :
    dedupTracks [ceTrackA, ceTrackB] = [ceTrackB] ∧ ceTrackB ≠ ceTrackA := by
  constructor
  · rfl
  · decide

section SliceLemmas

theorem sliceIdx_coe (L : ℕ) (k : ℕ) (h : k ≤ L) : sliceIdx L (k : ℤ) = k := by
  unfold sliceIdx
  rw [if_neg (by omega)]
  simp only [Int.toNat_natCast]
  omega

theorem pySlice_nat {α : Type} (l : List α) (a b : ℕ) (ha : a ≤ l.length)
    (hb : b ≤ l.length) : pySlice l (a : ℤ) (b : ℤ) = (l.take b).drop a := by
  unfold pySlice
  rw [sliceIdx_coe _ _ ha, sliceIdx_coe _ _ hb]

theorem slice_decomp {α : Type} (l : List α) (a b : ℕ) (hab : a ≤ b) :
    l.take a ++ (l.take b).drop a = l.take b := by
  conv_rhs => rw [← List.take_append_drop a (l.take b)]
  rw [List.take_take, min_eq_left hab]

theorem pySlice_length_le {α : Type} (l : List α) (a b : ℤ) :
    (pySlice l a b).length ≤ l.length := by
  unfold pySlice
  rw [List.length_drop, List.length_take]
  omega

theorem three_slices_eq_take (s : List Track) (n w : ℕ) (hnL : n ≤ s.length)
    (h2w : 2 * w ≤ n) :
    pySlice s 0 (w : ℤ) ++ pySlice s (w : ℤ) ((w : ℤ) + ((n : ℤ) - (w : ℤ) - (w : ℤ))) ++
      pySlice s ((w : ℤ) + ((n : ℤ) - (w : ℤ) - (w : ℤ)))
        ((w : ℤ) + ((n : ℤ) - (w : ℤ) - (w : ℤ)) + (w : ℤ)) = s.take n := by
  have hww : (w : ℤ) + ((n : ℤ) - (w : ℤ) - (w : ℤ)) = ((n - w : ℕ) : ℤ) := by omega
  have hww2 : (w : ℤ) + ((n : ℤ) - (w : ℤ) - (w : ℤ)) + (w : ℤ) = ((n : ℕ) : ℤ) := by omega
  rw [hww2, hww, ← Nat.cast_zero]
  rw [pySlice_nat s 0 w (by omega) (by omega),
    pySlice_nat s w (n - w) (by omega) (by omega),
    pySlice_nat s (n - w) n (by omega) hnL]
  rw [List.drop_zero, slice_decomp s w (n - w) (by omega),
    slice_decomp s (n - w) n (by omega)]

theorem pySlice_seg_lengths (s : List Track) (n w : ℕ) (hnL : n ≤ s.length)
    (h2w : 2 * w ≤ n) :
    (pySlice s 0 (w : ℤ)).length = w ∧
    (pySlice s (w : ℤ) ((w : ℤ) + ((n : ℤ) - (w : ℤ) - (w : ℤ)))).length = n - 2 * w ∧
    (pySlice s ((w : ℤ) + ((n : ℤ) - (w : ℤ) - (w : ℤ)))
      ((w : ℤ) + ((n : ℤ) - (w : ℤ) - (w : ℤ)) + (w : ℤ))).length = w := by
  have hww : (w : ℤ) + ((n : ℤ) - (w : ℤ) - (w : ℤ)) = ((n - w : ℕ) : ℤ) := by omega
  have hww2 : (w : ℤ) + ((n : ℤ) - (w : ℤ) - (w : ℤ)) + (w : ℤ) = ((n : ℕ) : ℤ) := by omega
  refine ⟨?_, ?_, ?_⟩
  · rw [← Nat.cast_zero, pySlice_nat s 0 w (by omega) (by omega), List.drop_zero,
      List.length_take]
    omega
  · rw [hww, pySlice_nat s w (n - w) (by omega) (by omega), List.length_drop, List.length_take]
    omega
  · rw [hww2, hww, pySlice_nat s (n - w) n (by omega) hnL, List.length_drop, List.length_take]
    omega

theorem three_pySlices_length_le (s : List Track) (a b c d e f : ℤ) :
    (pySlice s a b ++ pySlice s c d ++ pySlice s e f).length ≤ 3 * s.length := by
  rw [List.length_append, List.length_append]
  have e1 := pySlice_length_le s a b
  have e2 := pySlice_length_le s c d
  have e3 := pySlice_length_le s e f
  omega

theorem progressiveSlices_eq_take (s : List Track) (hn : 6 ≤ min s.length 30) :
    progressiveSlices s = s.take (min s.length 30) := by
  unfold progressiveSlices
  dsimp only []
  exact three_slices_eq_take s (min s.length 30) (max 3 (min s.length 30 / 5))
    (min_le_left _ _) (by omega)

theorem progressiveSlices_segments (s : List Track) (hn : 6 ≤ min s.length 30) :
    ∃ A B C : List Track, progressiveSlices s = A ++ B ++ C ∧
      A.length = max 3 (min s.length 30 / 5) ∧
      B.length = min s.length 30 - 2 * max 3 (min s.length 30 / 5) ∧
      C.length = max 3 (min s.length 30 / 5) := by
  have h := pySlice_seg_lengths s (min s.length 30) (max 3 (min s.length 30 / 5))
    (min_le_left _ _) (by omega)
  unfold progressiveSlices
  dsimp only []
  exact ⟨_, _, _, rfl, h.1, h.2.1, h.2.2⟩

theorem progressiveSlices_length_le (s : List Track) :
    (progressiveSlices s).length ≤ 3 * s.length := by
  unfold progressiveSlices
  dsimp only []
  exact three_pySlices_length_le s _ _ _ _ _ _

end SliceLemmas

/-- C9 (amended): the final selection always has length at most 30; for
non-long runs (or long runs under 12 km) it is the first 30 tracks of
one full shuffle of the candidates, hence a subpermutation of them; for
`run_type = "long"` with `distance_km ≥ 12` and at least 6 available
tracks after the 30-cap, the selection is the first `n` tracks of one
full shuffle split into warm-up/main/finish segments of sizes
`max 3 (n/5)`, `n - 2·max 3 (n/5)`, `max 3 (n/5)` concatenated in that
fixed order. (With fewer than 6 tracks the segments overlap and tracks
repeat; see the counterexample.) -/
theorem progressive_playlist_shape (shuffle : List Track → List Track)
    (hperm : ∀ l, (shuffle l).Perm l) (tracks : List Track) (run_type : String)
    (distance_km : ℚ) :
    (createProgressivePlaylist shuffle tracks run_type distance_km).length ≤ 30 ∧
    (run_type ≠ "long" ∨ distance_km < 12 →
      createProgressivePlaylist shuffle tracks run_type distance_km =
        (shuffle tracks).take 30 ∧
      List.Subperm (createProgressivePlaylist shuffle tracks run_type distance_km) tracks) ∧
    (run_type = "long" → 12 ≤ distance_km →
      6 ≤ min (shuffle tracks).length 30 →
      (createProgressivePlaylist shuffle tracks run_type distance_km =
        (shuffle tracks).take (min (shuffle tracks).length 30) ∧
       List.Subperm (createProgressivePlaylist shuffle tracks run_type distance_km) tracks ∧
       ∃ A B C : List Track,
         createProgressivePlaylist shuffle tracks run_type distance_km = A ++ B ++ C ∧
         A.length = max 3 (min (shuffle tracks).length 30 / 5) ∧
         B.length = min (shuffle tracks).length 30 -
           2 * max 3 (min (shuffle tracks).length 30 / 5) ∧
         C.length = max 3 (min (shuffle tracks).length 30 / 5))) := by
  by_cases hc : run_type ≠ "long" ∨ distance_km < 12
  · have heq : createProgressivePlaylist shuffle tracks run_type distance_km =
        (shuffle tracks).take 30 := by
      unfold createProgressivePlaylist
      rw [if_pos hc]
    have hsub : List.Subperm (createProgressivePlaylist shuffle tracks run_type distance_km)
        tracks := by
      rw [heq]
      exact ((List.take_sublist 30 (shuffle tracks)).subperm).trans (hperm tracks).subperm
    refine ⟨?_, fun _ => ⟨heq, hsub⟩, ?_⟩
    · rw [heq, List.length_take]
      omega
    · intro h1 h2 _
      rcases hc with hc | hc
      · exact absurd h1 hc
      · exact absurd h2 (not_le.mpr hc)
  · have hsplit : createProgressivePlaylist shuffle tracks run_type distance_km =
        progressiveSlices (shuffle tracks) := by
      unfold createProgressivePlaylist
      rw [if_neg hc]
    by_cases hn : 6 ≤ min (shuffle tracks).length 30
    · have hkey : createProgressivePlaylist shuffle tracks run_type distance_km =
          (shuffle tracks).take (min (shuffle tracks).length 30) :=
        hsplit.trans (progressiveSlices_eq_take _ hn)
      have hsub : List.Subperm (createProgressivePlaylist shuffle tracks run_type distance_km)
          tracks := by
        rw [hkey]
        exact ((List.take_sublist _ (shuffle tracks)).subperm).trans (hperm tracks).subperm
      refine ⟨?_, fun hcon => absurd hcon hc, fun _ _ _ => ⟨hkey, hsub, ?_⟩⟩
      · rw [hkey, List.length_take]
        omega
      · obtain ⟨A, B, C, hABC, hA, hB, hC⟩ := progressiveSlices_segments (shuffle tracks) hn
        exact ⟨A, B, C, hsplit.trans hABC, hA, hB, hC⟩
    · refine ⟨?_, fun hcon => absurd hcon hc, fun _ _ hn6 => absurd hn6 hn⟩
      rw [hsplit]
      have h1 := progressiveSlices_length_le (shuffle tracks)
      omega

/-- Closed instance of `progressive_playlist_shape`. -/
theorem progressive_playlist_shape_witness :
    (createProgressivePlaylist (fun l => l) ceTracks2 "easy" 5).length ≤ 30 :=
  (progressive_playlist_shape (fun l => l) (fun l => List.Perm.refl l) ceTracks2 "easy" 5).1

/-- C9 counterexample: a 12-km long run with 5 candidate tracks; the
negative main-segment size makes the warm-up and finish slices overlap,
so the returned playlist repeats a track and is not a selection
(partition) drawn from the candidates. -/
theorem progressive_duplicates_counterexample :
    ¬ List.Subperm (createProgressivePlaylist (fun l => l) ceTracks5 "long" 12) ceTracks5 := by
  intro hsp
  have hcount := hsp.count_le (⟨some "c", "uc", "nc"⟩ : Track)
  have heq : createProgressivePlaylist (fun l => l) ceTracks5 "long" 12 =
      [⟨some "a", "ua", "na"⟩, ⟨some "b", "ub", "nb"⟩, ⟨some "c", "uc", "nc"⟩,
       ⟨some "c", "uc", "nc"⟩, ⟨some "d", "ud", "nd"⟩, ⟨some "e", "ue", "ne"⟩] := by
    unfold createProgressivePlaylist
    rw [if_neg (by
      rintro (h | h)
      · exact h rfl
      · norm_num at h)]
    decide
  rw [heq] at hcount
  have h2 : List.count (⟨some "c", "uc", "nc"⟩ : Track)
      [(⟨some "a", "ua", "na"⟩ : Track), ⟨some "b", "ub", "nb"⟩, ⟨some "c", "uc", "nc"⟩,
       ⟨some "c", "uc", "nc"⟩, ⟨some "d", "ud", "nd"⟩, ⟨some "e", "ue", "ne"⟩] = 2 := by
    decide
  have h1 : List.count (⟨some "c", "uc", "nc"⟩ : Track) ceTracks5 = 1 := by decide
  rw [h1, h2] at hcount
  omega

section TruncationLemmas

theorem featuresMapFind_mem (feats : List (Option AudioFeat)) (tid : String)
    (f : AudioFeat) (h : featuresMapFind feats tid = some f) :
    some f ∈ feats ∧ f.id = tid := by
  unfold featuresMapFind at h
  have hmem := List.mem_of_find?_eq_some h
  have hpred := List.find?_some h
  rw [List.mem_reverse, List.mem_filterMap] at hmem
  obtain ⟨o, ho, hoe⟩ := hmem
  refine ⟨?_, by simpa using hpred⟩
  cases o with
  | none => simp at hoe
  | some g =>
    simp only [id_eq] at hoe
    rw [← hoe]
    exact ho

theorem filterTracks_mem_track (api : List String → List (Option AudioFeat))
    (tracks : List Track) (tt te tv tlt tle tlv : ℚ) (t : Track)
    (ht : t ∈ filterTracksByAudioFeatures api tracks tt te tv tlt tle tlv) :
    t ∈ tracks ∧ ∃ tid f, validId t = some tid ∧
      featuresMapFind (getAudioFeaturesForTracks api (trackIds tracks)) tid = some f := by
  unfold filterTracksByAudioFeatures at ht
  split_ifs at ht with hemp
  · simp at ht
  · rw [List.mem_filterMap] at ht
    obtain ⟨a, ha, hae⟩ := ht
    cases hv : validId a with
    | none =>
      simp only [hv] at hae
      exact absurd hae (by simp)
    | some tid =>
      simp only [hv] at hae
      cases hf : featuresMapFind (getAudioFeaturesForTracks api (trackIds tracks)) tid with
      | none =>
        simp only [hf] at hae
        exact absurd hae (by simp)
      | some f =>
        simp only [hf] at hae
        split_ifs at hae with hcond
        · injection hae with h1
          subst h1
          exact ⟨ha, tid, f, hv, hf⟩

theorem filterTracks_mem_intro (api : List String → List (Option AudioFeat))
    (tracks : List Track) (tt te tv tlt tle tlv : ℚ) (t : Track) (tid : String)
    (f : AudioFeat) (htr : t ∈ tracks) (hv : validId t = some tid)
    (hf : featuresMapFind (getAudioFeaturesForTracks api (trackIds tracks)) tid = some f)
    (hcond : |f.tempo - tt| ≤ tlt ∧ |f.energy - te| ≤ tle ∧ |f.valence - tv| ≤ tlv) :
    t ∈ filterTracksByAudioFeatures api tracks tt te tv tlt tle tlv := by
  unfold filterTracksByAudioFeatures
  rw [if_neg (by intro h; rw [h] at htr; simp at htr)]
  rw [List.mem_filterMap]
  refine ⟨t, htr, ?_⟩
  simp only [hv, hf]
  rw [if_pos hcond]

theorem filterTracks_id_in_first100 (api : List String → List (Option AudioFeat))
    (hapi : ∀ ids f, (some f) ∈ api ids → f.id ∈ ids)
    (tracks : List Track) (tt te tv tlt tle tlv : ℚ) (t : Track)
    (ht : t ∈ filterTracksByAudioFeatures api tracks tt te tv tlt tle tlv) :
    ∃ tid, validId t = some tid ∧ tid ∈ (trackIds tracks).take 100 := by
  obtain ⟨htr, tid, f, hv, hf⟩ := filterTracks_mem_track api tracks tt te tv tlt tle tlv t ht
  obtain ⟨hmem, hid⟩ := featuresMapFind_mem _ _ _ hf
  unfold getAudioFeaturesForTracks at hmem
  split_ifs at hmem with hids
  · simp at hmem
  · exact ⟨tid, hv, hid ▸ hapi _ f hmem⟩

theorem mem_take_of_validId : ∀ (tracks : List Track) (n : ℕ) (t : Track) (s : String),
    (∀ u ∈ tracks, (validId u).isSome) → (trackIds tracks).Nodup →
    t ∈ tracks → validId t = some s → s ∈ (trackIds tracks).take n → t ∈ tracks.take n := by
  intro tracks
  induction tracks with
  | nil => intro n t s _ _ hmem; simp at hmem
  | cons a l ih =>
    intro n t s hall hnd hmem hid hs
    have hvala : ∃ sa, validId a = some sa := by
      have h := hall a (List.mem_cons_self a l)
      cases hv : validId a with
      | none => rw [hv] at h; simp at h
      | some sa => exact ⟨sa, rfl⟩
    obtain ⟨sa, hsa⟩ := hvala
    have hids : trackIds (a :: l) = sa :: trackIds l := by
      unfold trackIds
      rw [List.filterMap_cons_some hsa]
    rw [hids] at hnd hs
    cases n with
    | zero => simp at hs
    | succ m =>
      rw [List.take_succ_cons] at hs
      rw [List.take_succ_cons]
      rcases List.mem_cons.mp hmem with rfl | hmem'
      · exact List.mem_cons_self _ _
      · rcases List.mem_cons.mp hs with heq | hs'
        · exfalso
          have hsl : s ∈ trackIds l := List.mem_filterMap.mpr ⟨t, hmem', hid⟩
          rw [heq] at hsl
          exact (List.nodup_cons.mp hnd).1 hsl
        · have hall' : ∀ u ∈ l, (validId u).isSome := fun u hu =>
            hall u (List.mem_cons_of_mem a hu)
          exact List.mem_cons_of_mem a
            (ih m t s hall' (List.nodup_cons.mp hnd).2 hmem' hid hs')

end TruncationLemmas

/-- C10 (amended): audio features are fetched only for the first 100
collected track ids, and a track without fetched features never passes
the filter, so every returned track's id lies among the first 100
collected ids; when moreover every candidate has a truthy id and the ids
are duplicate-free, every returned track is one of the first 100
candidates. (Without those provisos a returned track can lie beyond the
first 100 candidates; see the counterexample.) -/
theorem audio_features_first_100 (api : List String → List (Option AudioFeat))
    (hapi : ∀ ids f, (some f) ∈ api ids → f.id ∈ ids)
    (tracks : List Track) (tt te tv tlt tle tlv : ℚ) :
    (∀ t ∈ filterTracksByAudioFeatures api tracks tt te tv tlt tle tlv,
      ∃ tid, validId t = some tid ∧ tid ∈ (trackIds tracks).take 100) ∧
    ((∀ u ∈ tracks, (validId u).isSome) → (trackIds tracks).Nodup →
      ∀ t ∈ filterTracksByAudioFeatures api tracks tt te tv tlt tle tlv,
        t ∈ tracks.take 100) := by
  constructor
  · intro t ht
    exact filterTracks_id_in_first100 api hapi tracks tt te tv tlt tle tlv t ht
  · intro hall hnd t ht
    obtain ⟨tid, hv, htake⟩ :=
      filterTracks_id_in_first100 api hapi tracks tt te tv tlt tle tlv t ht
    exact mem_take_of_validId tracks 100 t tid hall hnd
      (filterTracks_mem_track api tracks tt te tv tlt tle tlv t ht).1 hv htake

/-- Closed instance of `audio_features_first_100`. -/
theorem audio_features_first_100_witness :
    ∃ tid, validId ceTrackG = some tid ∧ tid ∈ (trackIds ceTracks101).take 100 := by
  have hapi : ∀ ids f, (some f) ∈ ceApi ids → f.id ∈ ids := by
    intro ids f hm
    unfold ceApi at hm
    rw [List.mem_map] at hm
    obtain ⟨s, hs, he⟩ := hm
    by_cases hsg : s = "g"
    · rw [if_pos hsg] at he
      injection he with he2
      rw [← he2]
      exact hs
    · rw [if_neg hsg] at he
      simp at he
  have hmem : ceTrackG ∈ filterTracksByAudioFeatures ceApi ceTracks101 140 0 0 25 1 1 :=
    filterTracks_mem_intro ceApi ceTracks101 140 0 0 25 1 1 ceTrackG "g" ⟨"g", 140, 0, 0⟩
      (by decide) rfl rfl (by norm_num)
  exact (audio_features_first_100 ceApi hapi ceTracks101 140 0 0 25 1 1).1 ceTrackG hmem

/-- C10 counterexample: 101 candidates whose first has no id. The 100
collected ids suffer no truncation, and the filter returns the 101st
candidate, which is not among the first 100 candidates — refuting the
claim that every returned track comes from the first 100 candidates. -/
theorem audio_features_beyond_first_100 :
    100 < ceTracks101.length ∧
    ceTrackG ∈ filterTracksByAudioFeatures ceApi ceTracks101 140 0 0 25 1 1 ∧
    ceTrackG ∉ ceTracks101.take 100 := by
  refine ⟨by decide, ?_, by decide⟩
  exact filterTracks_mem_intro ceApi ceTracks101 140 0 0 25 1 1 ceTrackG "g" ⟨"g", 140, 0, 0⟩
    (by decide) rfl rfl (by norm_num)
